import Mathlib

/-!
# Verification of the pdf-sanitization backend

Shallow embedding of the pure logic of the repository's Python backend
(`backend/pipeline.py`, `backend/template_utils.py`, `backend/api_app.py`,
`backend/llm_utils.py`) together with theorems settling the specification
claims about it.

Conventions of the embedding:
* Python floats that only ever take part in field arithmetic and order
  comparisons are modelled as rationals (`ℚ`).
* Python strings are modelled as `String` or `List Char` (the latter when
  character-level processing matters); `str.isalnum`, `str.lower`, `str.strip`
  are modelled on their ASCII fragment, which is all the claims exercise.
* A bbox `(x1, y1, x2, y2)` is a quadruple of rationals.
* Fallible/IO-bound steps (file system, PyMuPDF page objects) are modelled by
  explicit data (`PdfModel`, score records) holding exactly the values the
  embedded code reads from them.
-/

/-- A bbox `(x1, y1, x2, y2)` with rational coordinates. -/
abbrev BBoxQ : Type := ℚ × ℚ × ℚ × ℚ

/-- `template_utils._normalized_bbox`: order the two corners so that
`x1 ≤ x2` and `y1 ≤ y2`. -/
def normalized_bbox (b : BBoxQ) : BBoxQ :=
  (min b.1 b.2.2.1, min b.2.1 b.2.2.2, max b.1 b.2.2.1, max b.2.1 b.2.2.2)

/-- The final normalisation step of `template_utils.transform_bbox_for_rotation`:
swap the x-coordinates if `nx2 < nx1`, and the y-coordinates if `ny2 < ny1`. -/
def renorm_bbox (b : BBoxQ) : BBoxQ :=
  ((if b.2.2.1 < b.1 then b.2.2.1 else b.1),
   (if b.2.2.2 < b.2.1 then b.2.2.2 else b.2.1),
   (if b.2.2.1 < b.1 then b.1 else b.2.2.1),
   (if b.2.2.2 < b.2.1 then b.2.1 else b.2.2.2))

/-- `template_utils.transform_bbox_for_rotation(bbox, pw, ph, pr)`.

The Python source reduces `pr` with `int(pr) % 360` (Python `%` on a positive
modulus is the euclidean remainder, as is Lean's `Int` `%`), selects the
rotated corner pairs for 0/90/180/270 (identity for any other residue),
re-normalises by swapping reversed coordinates, and returns the result without
clamping (the clamping block in the source is commented out). -/
def transform_bbox_for_rotation (bbox : BBoxQ) (pw ph : ℚ) (pr : Int) : BBoxQ :=
  renorm_bbox
    (if pr % 360 = 0 then bbox
     else if pr % 360 = 90 then
       (bbox.2.1, pw - bbox.2.2.1, bbox.2.2.2, pw - bbox.1)
     else if pr % 360 = 180 then
       (pw - bbox.2.2.1, ph - bbox.2.2.2, pw - bbox.1, ph - bbox.2.1)
     else if pr % 360 = 270 then
       (ph - bbox.2.2.2, bbox.1, ph - bbox.2.1, bbox.2.2.1)
     else bbox)

/-- The swap normalisation always produces `x1 ≤ x2` and `y1 ≤ y2`. -/
lemma renorm_bbox_le (b : BBoxQ) :
    (renorm_bbox b).1 ≤ (renorm_bbox b).2.2.1 ∧ (renorm_bbox b).2.1 ≤ (renorm_bbox b).2.2.2 := by
  unfold renorm_bbox
  constructor <;> dsimp only <;> split
  · exact le_of_lt (by assumption)
  · exact le_of_not_lt (by assumption)
  · exact le_of_lt (by assumption)
  · exact le_of_not_lt (by assumption)

/-- C2: `transform_bbox_for_rotation` realises exactly the rotation table of the
spec (r=0 identity; r=90 `(y1, pw−x2, y2, pw−x1)`; r=180
`(pw−x2, ph−y2, pw−x1, ph−y1)`; r=270 `(ph−y2, x1, ph−y1, x2)`; any other
residue identity), re-normalised so that `x1' ≤ x2'` and `y1' ≤ y2'`, never
clamped to the page; and on `pw=600, ph=800`, bbox `(50,50,150,150)` the four
rotations give `(50,50,150,150)`, `(50,450,150,550)`, `(450,650,550,750)`,
`(650,50,750,150)`. -/
theorem c2_transform_bbox_table :
    (transform_bbox_for_rotation (50, 50, 150, 150) 600 800 0 = (50, 50, 150, 150)
      ∧ transform_bbox_for_rotation (50, 50, 150, 150) 600 800 90 = (50, 450, 150, 550)
      ∧ transform_bbox_for_rotation (50, 50, 150, 150) 600 800 180 = (450, 650, 550, 750)
      ∧ transform_bbox_for_rotation (50, 50, 150, 150) 600 800 270 = (650, 50, 750, 150))
    ∧ (∀ b : BBoxQ, ∀ pw ph : ℚ, ∀ pr : Int,
        (transform_bbox_for_rotation b pw ph pr).1 ≤ (transform_bbox_for_rotation b pw ph pr).2.2.1
        ∧ (transform_bbox_for_rotation b pw ph pr).2.1 ≤ (transform_bbox_for_rotation b pw ph pr).2.2.2)
    ∧ (∀ b : BBoxQ, ∀ pw ph : ℚ, ∀ pr : Int,
        (pr % 360 = 0 → transform_bbox_for_rotation b pw ph pr = renorm_bbox b)
        ∧ (pr % 360 = 90 → transform_bbox_for_rotation b pw ph pr =
            renorm_bbox (b.2.1, pw - b.2.2.1, b.2.2.2, pw - b.1))
        ∧ (pr % 360 = 180 → transform_bbox_for_rotation b pw ph pr =
            renorm_bbox (pw - b.2.2.1, ph - b.2.2.2, pw - b.1, ph - b.2.1))
        ∧ (pr % 360 = 270 → transform_bbox_for_rotation b pw ph pr =
            renorm_bbox (ph - b.2.2.2, b.1, ph - b.2.1, b.2.2.1))
        ∧ (pr % 360 ≠ 0 → pr % 360 ≠ 90 → pr % 360 ≠ 180 → pr % 360 ≠ 270 →
            transform_bbox_for_rotation b pw ph pr = renorm_bbox b))
    ∧ transform_bbox_for_rotation (-10, -10, 700, 900) 600 800 0 = (-10, -10, 700, 900) := by
  refine ⟨⟨by norm_num [transform_bbox_for_rotation, renorm_bbox],
          by norm_num [transform_bbox_for_rotation, renorm_bbox],
          by norm_num [transform_bbox_for_rotation, renorm_bbox],
          by norm_num [transform_bbox_for_rotation, renorm_bbox]⟩,
        fun b pw ph pr => renorm_bbox_le _,
        ?_,
        by norm_num [transform_bbox_for_rotation, renorm_bbox]⟩
  intro b pw ph pr
  exact ⟨fun h => by simp [transform_bbox_for_rotation, h],
         fun h => by simp [transform_bbox_for_rotation, h],
         fun h => by simp [transform_bbox_for_rotation, h],
         fun h => by simp [transform_bbox_for_rotation, h],
         fun h0 h90 h180 h270 => by simp [transform_bbox_for_rotation, h0, h90, h180, h270]⟩

/-- Witness for C2: the "other residue" branch at rotation 360 (which reduces
to residue 0) evaluated on a concrete bbox. -/
theorem c2_transform_bbox_table_witness :
    transform_bbox_for_rotation (1, 2, 3, 4) 600 800 360 = renorm_bbox (1, 2, 3, 4) :=
  (c2_transform_bbox_table.2.2.1 (1, 2, 3, 4) 600 800 360).1 (by decide)

/-! ## Low-confidence entries, the PassLog step (C3) and the secondary gate (C5) -/

/-- One entry of the `low_conf` list produced by `process_batch`: the
pipeline-normalised file key (`_norm_key_from_path` output) and the
`low_rects` mapping `page index ↦ failing bboxes`, in insertion order. -/
structure LowConfEntry where
  pdfKey : String
  lowRects : List (Nat × List BBoxQ)
deriving DecidableEq

/-- The guard at the top of `pipeline.process_low_conf_batch`:

    if not low_conf: return []
    if len(low_conf) < 3: return []

`none` models returning the empty list before any template resolution takes
place; `some entries` models falling through to the template-resolution and
PDF-processing part of the function (which performs I/O and is not modelled
further). -/
def process_low_conf_batch_gate (low_conf : List LowConfEntry) :
    Option (List LowConfEntry) :=
  if low_conf.isEmpty then none
  else if low_conf.length < 3 then none
  else some low_conf

/-- C5: `process_low_conf_batch` returns an empty list immediately on zero
entries, returns an empty list without touching template resolution on fewer
than three entries, and proceeds (with exactly its input entries) on three or
more. -/
theorem c5_low_conf_gate :
    process_low_conf_batch_gate [] = none
    ∧ (∀ l : List LowConfEntry, l.length < 3 → process_low_conf_batch_gate l = none)
    ∧ (∀ l : List LowConfEntry, 3 ≤ l.length → process_low_conf_batch_gate l = some l) := by
  refine ⟨rfl, ?_, ?_⟩
  · intro l h
    unfold process_low_conf_batch_gate
    split
    · rfl
    · simp [h]
  · intro l h
    have h1 : ¬ l.isEmpty = true := by
      rw [List.isEmpty_iff]
      intro he
      subst he
      simp at h
    have h2 : ¬ l.length < 3 := by omega
    unfold process_low_conf_batch_gate
    rw [if_neg h1, if_neg h2]

/-- Witness for C5: two entries are skipped, three entries proceed. -/
theorem c5_low_conf_gate_witness :
    process_low_conf_batch_gate [⟨"a", []⟩, ⟨"b", []⟩] = none
    ∧ process_low_conf_batch_gate [⟨"a", []⟩, ⟨"b", []⟩, ⟨"c", []⟩] =
        some [⟨"a", []⟩, ⟨"b", []⟩, ⟨"c", []⟩] :=
  ⟨c5_low_conf_gate.2.1 _ (by decide), c5_low_conf_gate.2.2 _ (by decide)⟩

/-! ## The layout-classification failure handler of `save_profile_multi` (C4) -/

/-- A Python exception, as far as the model needs to distinguish them. -/
inductive PyExc where
  | unboundLocalE
  | otherExc
deriving DecidableEq

/-- The per-group layout-classification step of
`TemplateManager.save_profile_multi` (template_utils.py lines 333-338):

    try:
        src_paper, src_orient, _ = _classify_page_layout(src_pdf)
        print(f"[TemplateMulti] Source=... layout ...")
    except Exception:
        print(f"[TemplateMulti] Could not classify layout for ...: Variable e")
        src_paper, src_orient = None, None

The input is the outcome of `_classify_page_layout` (I/O, abstracted as an
`Except`).  On success the pair is returned.  On failure the handler runs:
its `except` clause does not bind the exception to a name, yet the f-string
in the handler's `print` interpolates the local variable `e` (`e` is a local
of the function because a later `except Exception as e:` clause assigns it,
and Python deletes that binding when that later block exits, so `e` is never
bound when this handler runs).  Evaluating the f-string therefore raises
`UnboundLocalError` inside the handler, and nothing in `save_profile_multi`
catches it; the assignment `src_paper, src_orient = None, None` on the next
line is never reached. -/
def classify_layout_step (classified : Except Unit (String × String)) :
    Except PyExc (Option String × Option String) :=
  match classified with
  | Except.ok (p, o) => Except.ok (some p, some o)
  | Except.error _ => Except.error PyExc.unboundLocalE

/-- C4 (code bug): when layout classification fails, the handler itself
raises (an `UnboundLocalError` escapes it) instead of logging and letting the
group proceed unfiltered as the spec states. -/
theorem c4_classify_handler_raises :
    classify_layout_step (Except.error ()) = Except.error PyExc.unboundLocalE := rfl

/-! ## Batch-mode per-page gating of scored replicated zones (C1)

`pipeline.process_batch`, lines 242-318: each replicated rectangle is scored
(`tscore`, `iscore`, `rscore = (tscore+iscore)/2`) and carries its page,
template index and page-scoped `group_id`.  The records are grouped by page
(defaultdict of first-occurrence order), each page's records are grouped by
`group_id`, a record passes iff `iscore >= THRESH_I` with `THRESH_I =
threshold`, a group passes iff none of its records fail, all individually
passing records are appended to `high_conf_rects`, and a page's failing
records are recorded in `low_confidence_by_page` iff the page has failing
records and no passing group.  The scorer itself (`ConfidenceScorer`, image
and OCR I/O) is not modelled: the claim is about the gating applied to the
scores. -/

/-- One element of `record_scores` in `process_batch`. -/
structure ScoreRec where
  page : Nat
  bbox : BBoxQ
  tidx : Nat
  tscore : ℚ
  iscore : ℚ
  rscore : ℚ
  groupId : String
deriving DecidableEq

/-- Keys of a Python `defaultdict(list)` built by appending: every key, in
first-occurrence order. -/
def firstKeys {α β : Type} [DecidableEq α] (f : β → α) : List β → List α
  | [] => []
  | b :: rest => f b :: (firstKeys f rest).filter (fun a => decide (a ≠ f b))

lemma mem_firstKeys {α β : Type} [DecidableEq α] (f : β → α) (l : List β) (a : α) :
    a ∈ firstKeys f l ↔ ∃ b ∈ l, f b = a := by
  induction l with
  | nil => simp [firstKeys]
  | cons b rest ih =>
    simp only [firstKeys, List.mem_cons, List.mem_filter, ih, decide_eq_true_eq]
    constructor
    · rintro (rfl | ⟨⟨b', hb', rfl⟩, _⟩)
      · exact ⟨b, Or.inl rfl, rfl⟩
      · exact ⟨b', Or.inr hb', rfl⟩
    · rintro ⟨b', hb', rfl⟩
      rcases hb' with rfl | hb'
      · exact Or.inl rfl
      · by_cases h : f b' = f b
        · exact Or.inl h
        · exact Or.inr ⟨⟨b', hb', rfl⟩, h⟩

lemma firstKeys_map {α β γ : Type} [DecidableEq α] (f : γ → α) (g : β → γ) (l : List β) :
    firstKeys f (l.map g) = firstKeys (fun b => f (g b)) l := by
  induction l with
  | nil => rfl
  | cons b rest ih => simp [firstKeys, ih]

/-- The `pages` defaultdict: key order. -/
def pagesOf (recs : List ScoreRec) : List Nat := firstKeys (fun r => r.page) recs

/-- The `pages` defaultdict: records of one page, in original order. -/
def pageRecs (recs : List ScoreRec) (pg : Nat) : List ScoreRec :=
  recs.filter (fun r => decide (r.page = pg))

/-- The per-page `groups` defaultdict: key order. -/
def groupIdsOf (precs : List ScoreRec) : List String :=
  firstKeys (fun r => r.groupId) precs

/-- The per-page `groups` defaultdict: records of one group, in order. -/
def groupRecs (precs : List ScoreRec) (g : String) : List ScoreRec :=
  precs.filter (fun r => decide (r.groupId = g))

/-- `rect_pass = (rec["iscore"] >= THRESH_I)` with `THRESH_I = threshold`. -/
def rect_pass (threshold : ℚ) (r : ScoreRec) : Bool := decide (threshold ≤ r.iscore)

/-- `page_passing_rects`: for each group in order, its individually passing
records. -/
def pagePassingRects (threshold : ℚ) (precs : List ScoreRec) : List ScoreRec :=
  (groupIdsOf precs).flatMap (fun g => (groupRecs precs g).filter (rect_pass threshold))

/-- `page_failing_rects`: for each group in order, its failing records. -/
def pageFailingRects (threshold : ℚ) (precs : List ScoreRec) : List ScoreRec :=
  (groupIdsOf precs).flatMap (fun g =>
    (groupRecs precs g).filter (fun r => !(rect_pass threshold r)))

/-- `page_has_passing_group`: some group has no failing record. -/
def pageHasPassingGroup (threshold : ℚ) (precs : List ScoreRec) : Bool :=
  (groupIdsOf precs).any (fun g => (groupRecs precs g).all (rect_pass threshold))

/-- An element of `high_conf_rects` (`page`, `bbox`, `tidx`). -/
structure HighRec where
  page : Nat
  bbox : BBoxQ
  tidx : Nat
deriving DecidableEq

/-- `high_conf_rects`: all individually passing records of all pages. -/
def highConfRects (threshold : ℚ) (recs : List ScoreRec) : List HighRec :=
  (pagesOf recs).flatMap (fun pg =>
    (pagePassingRects threshold (pageRecs recs pg)).map (fun r => ⟨r.page, r.bbox, r.tidx⟩))

/-- `low_confidence_by_page` (as the final `dict(...)`): pages whose failing
bboxes were recorded, i.e. pages with failing records and no passing group. -/
def lowConfByPage (threshold : ℚ) (recs : List ScoreRec) : List (Nat × List BBoxQ) :=
  (pagesOf recs).filterMap (fun pg =>
    if pageFailingRects threshold (pageRecs recs pg) ≠ [] ∧
        pageHasPassingGroup threshold (pageRecs recs pg) = false then
      some (pg, (pageFailingRects threshold (pageRecs recs pg)).map (fun r => r.bbox))
    else none)

/-- Replace the text score and the combined score of a record by arbitrary
values, leaving page, bbox, tidx, image score and group untouched. -/
def scrubScores (t u : ℚ) (r : ScoreRec) : ScoreRec :=
  { r with tscore := t, rscore := u }

lemma pageRecs_scrub (t u : ℚ) (recs : List ScoreRec) (pg : Nat) :
    pageRecs (recs.map (scrubScores t u)) pg = (pageRecs recs pg).map (scrubScores t u) := by
  unfold pageRecs
  rw [List.filter_map]
  rfl

lemma groupRecs_scrub (t u : ℚ) (precs : List ScoreRec) (g : String) :
    groupRecs (precs.map (scrubScores t u)) g = (groupRecs precs g).map (scrubScores t u) := by
  unfold groupRecs
  rw [List.filter_map]
  rfl

lemma groupIdsOf_scrub (t u : ℚ) (precs : List ScoreRec) :
    groupIdsOf (precs.map (scrubScores t u)) = groupIdsOf precs := by
  unfold groupIdsOf
  rw [firstKeys_map]
  rfl

lemma pagesOf_scrub (t u : ℚ) (recs : List ScoreRec) :
    pagesOf (recs.map (scrubScores t u)) = pagesOf recs := by
  unfold pagesOf
  rw [firstKeys_map]
  rfl

lemma pagePassingRects_scrub (t u θ : ℚ) (precs : List ScoreRec) :
    pagePassingRects θ (precs.map (scrubScores t u)) =
      (pagePassingRects θ precs).map (scrubScores t u) := by
  unfold pagePassingRects
  rw [groupIdsOf_scrub, List.map_flatMap]
  refine congrArg _ (funext fun g => ?_)
  rw [groupRecs_scrub, List.filter_map]
  rfl

lemma pageFailingRects_scrub (t u θ : ℚ) (precs : List ScoreRec) :
    pageFailingRects θ (precs.map (scrubScores t u)) =
      (pageFailingRects θ precs).map (scrubScores t u) := by
  unfold pageFailingRects
  rw [groupIdsOf_scrub, List.map_flatMap]
  refine congrArg _ (funext fun g => ?_)
  rw [groupRecs_scrub, List.filter_map]
  rfl

lemma pageHasPassingGroup_scrub (t u θ : ℚ) (precs : List ScoreRec) :
    pageHasPassingGroup θ (precs.map (scrubScores t u)) = pageHasPassingGroup θ precs := by
  unfold pageHasPassingGroup
  rw [groupIdsOf_scrub]
  refine congrArg _ (funext fun g => ?_)
  rw [groupRecs_scrub, List.all_map]
  rfl

lemma mem_pagePassingRects (θ : ℚ) (precs : List ScoreRec) (r : ScoreRec)
    (hr : r ∈ precs) (hp : rect_pass θ r = true) : r ∈ pagePassingRects θ precs := by
  unfold pagePassingRects
  rw [List.mem_flatMap]
  refine ⟨r.groupId, ?_, ?_⟩
  · rw [groupIdsOf, mem_firstKeys]
    exact ⟨r, hr, rfl⟩
  · rw [List.mem_filter]
    refine ⟨?_, hp⟩
    rw [groupRecs, List.mem_filter]
    exact ⟨hr, by simp⟩

/-- C1: in `process_batch`, a zone passes iff its image score is at least the
caller's threshold; every individually passing zone enters the redaction set
whatever its group does; a page's failing bboxes are reported exactly when the
page has no fully passing group; text score and combined score play no role;
and at threshold 9/10 a 4/5-scored zone alone in its group is reported and
excluded while a 19/20-scored zone is redacted. -/
theorem c1_process_batch_gating (θ : ℚ) (recs : List ScoreRec) :
    (∀ r ∈ recs, rect_pass θ r = true ↔ θ ≤ r.iscore)
    ∧ (∀ r ∈ recs, θ ≤ r.iscore →
        (⟨r.page, r.bbox, r.tidx⟩ : HighRec) ∈ highConfRects θ recs)
    ∧ (∀ pg bbs, (pg, bbs) ∈ lowConfByPage θ recs →
        pageHasPassingGroup θ (pageRecs recs pg) = false ∧
        bbs = (pageFailingRects θ (pageRecs recs pg)).map (fun r => r.bbox))
    ∧ (∀ pg ∈ pagesOf recs, pageFailingRects θ (pageRecs recs pg) ≠ [] →
        pageHasPassingGroup θ (pageRecs recs pg) = false →
        (pg, (pageFailingRects θ (pageRecs recs pg)).map (fun r => r.bbox)) ∈
          lowConfByPage θ recs)
    ∧ (∀ t u : ℚ,
        highConfRects θ (recs.map (scrubScores t u)) = highConfRects θ recs
        ∧ lowConfByPage θ (recs.map (scrubScores t u)) = lowConfByPage θ recs)
    ∧ (highConfRects (mkRat 9 10)
          [⟨0, (1, 2, 3, 4), 0, mkRat 7 10, mkRat 4 5, mkRat 3 4, "src0|p0"⟩,
           ⟨1, (5, 6, 7, 8), 1, 0, mkRat 19 20, mkRat 1 2, "src0|p0"⟩] =
        [⟨1, (5, 6, 7, 8), 1⟩]
      ∧ lowConfByPage (mkRat 9 10)
          [⟨0, (1, 2, 3, 4), 0, mkRat 7 10, mkRat 4 5, mkRat 3 4, "src0|p0"⟩,
           ⟨1, (5, 6, 7, 8), 1, 0, mkRat 19 20, mkRat 1 2, "src0|p0"⟩] =
        [(0, [(1, 2, 3, 4)])]
      ∧ (⟨0, (1, 2, 3, 4), 0⟩ : HighRec) ∉ highConfRects (mkRat 9 10)
          [⟨0, (1, 2, 3, 4), 0, mkRat 7 10, mkRat 4 5, mkRat 3 4, "src0|p0"⟩,
           ⟨1, (5, 6, 7, 8), 1, 0, mkRat 19 20, mkRat 1 2, "src0|p0"⟩]) := by
  refine ⟨?_, ?_, ?_, ?_, ?_, ?_, ?_, ?_⟩
  · intro r _
    simp [rect_pass]
  · intro r hr hle
    unfold highConfRects
    rw [List.mem_flatMap]
    refine ⟨r.page, ?_, ?_⟩
    · rw [pagesOf, mem_firstKeys]
      exact ⟨r, hr, rfl⟩
    · rw [List.mem_map]
      refine ⟨r, mem_pagePassingRects θ _ r ?_ ?_, rfl⟩
      · rw [pageRecs, List.mem_filter]
        exact ⟨hr, by simp⟩
      · simpa [rect_pass] using hle
  · intro pg bbs h
    unfold lowConfByPage at h
    rw [List.mem_filterMap] at h
    obtain ⟨pg', _, hif⟩ := h
    split at hif
    · rename_i hcond
      simp only [Option.some.injEq, Prod.mk.injEq] at hif
      obtain ⟨rfl, rfl⟩ := hif
      exact ⟨hcond.2, rfl⟩
    · exact absurd hif (by simp)
  · intro pg hpg hne hfail
    unfold lowConfByPage
    rw [List.mem_filterMap]
    exact ⟨pg, hpg, by rw [if_pos ⟨hne, hfail⟩]⟩
  · intro t u
    constructor
    · unfold highConfRects
      rw [pagesOf_scrub]
      refine congrArg _ (funext fun pg => ?_)
      rw [pageRecs_scrub, pagePassingRects_scrub, List.map_map]
      rfl
    · unfold lowConfByPage
      rw [pagesOf_scrub]
      refine congrFun (congrArg List.filterMap (funext fun pg => ?_)) _
      rw [pageRecs_scrub, pageFailingRects_scrub, pageHasPassingGroup_scrub, List.map_map]
      simp only [ne_eq, List.map_eq_nil_iff]
      rfl
  · decide
  · decide
  · decide

/-- Witness for C1: the 19/20-scored zone of the concrete instance is in the
redaction set, obtained through the general membership conjunct. -/
theorem c1_process_batch_gating_witness :
    (⟨1, (5, 6, 7, 8), 1⟩ : HighRec) ∈ highConfRects (mkRat 9 10)
      [⟨0, (1, 2, 3, 4), 0, mkRat 7 10, mkRat 4 5, mkRat 3 4, "src0|p0"⟩,
       ⟨1, (5, 6, 7, 8), 1, 0, mkRat 19 20, mkRat 1 2, "src0|p0"⟩] :=
  (c1_process_batch_gating (mkRat 9 10)
      [⟨0, (1, 2, 3, 4), 0, mkRat 7 10, mkRat 4 5, mkRat 3 4, "src0|p0"⟩,
       ⟨1, (5, 6, 7, 8), 1, 0, mkRat 19 20, mkRat 1 2, "src0|p0"⟩]).2.1
    ⟨1, (5, 6, 7, 8), 1, 0, mkRat 19 20, mkRat 1 2, "src0|p0"⟩ (by decide) (by decide)

/-! ## The PassLog update-and-filter step of the sanitize endpoints (C3)

`api_app.sanitize` (lines 306-359) and `api_app.sanitize_existing` (lines
509-562) run the identical block: load the PassLog (a dict `file key ↦ sorted
passed pages`), compute per input file the newly passed pages (all pages minus
the failing pages the pipeline reported), merge them into the PassLog, and
return the pipeline's low-confidence report filtered down to pages not in the
updated PassLog.  File keys are the `_norm_key_from_path` outputs; the PassLog
dict is modelled as a function from keys to page lists (`.get(k, [])`
semantics); the page-count probe `fitz.open(p).page_count` is an `Option Nat`.
Python `set`s of page numbers are modelled as lists carrying the same
elements: every construction below either only tests membership of the set or
sorts and deduplicates it, so the list order and multiplicity are never
observable, exactly as for a Python `set`. -/

/-- One input path as the PassLog block sees it: its normalised key and the
result of the page-count probe (`none` models the `except` fallback). -/
structure PathInfo where
  key : String
  nPages : Option Nat
deriving DecidableEq

/-- Insertion step of a structural insertion sort on page numbers. -/
def insertSorted (x : Nat) : List Nat → List Nat
  | [] => [x]
  | y :: ys => if x ≤ y then x :: y :: ys else y :: insertSorted x ys

/-- `sorted(<set of ints>)`: sort the distinct elements. -/
def pySortedSet (l : List Nat) : List Nat := l.dedup.foldr insertSorted []

/-- The `failing_by_base` dict: later entries overwrite earlier ones, lookup
of a missing key gives `[]`. -/
def failingByBase (lowConf : List LowConfEntry) : String → List Nat :=
  lowConf.foldl
    (fun m item => fun k =>
      if k = item.pdfKey then pySortedSet (item.lowRects.map Prod.fst) else m k)
    (fun _ => [])

/-- One iteration of the `for p in paths` PassLog-update loop:

    already = set(passlog.get(base_key, []))
    failing = set(failing_by_base.get(base_key, []))
    newly_passed = set(range(n_pages)) - failing   (empty if no page count)
    if newly_passed: passlog[base_key] = sorted(already | newly_passed)
-/
def passlogStepOne (lowConf : List LowConfEntry) (pl : String → List Nat)
    (p : PathInfo) : String → List Nat :=
  let newly : List Nat :=
    match p.nPages with
    | some n =>
        if 0 < n then
          (List.range n).filter (fun i => decide (i ∉ failingByBase lowConf p.key))
        else []
    | none => []
  if newly ≠ [] then
    fun k => if k = p.key then pySortedSet (pl p.key ++ newly) else pl k
  else pl

/-- The whole PassLog-update loop. -/
def passlogUpdate (pl : String → List Nat) (paths : List PathInfo)
    (lowConf : List LowConfEntry) : String → List Nat :=
  paths.foldl (passlogStepOne lowConf) pl

/-- The `kept` dict of the report filter: the failing pages of one entry that
are not in the (updated) PassLog. -/
def keptRects (pl : String → List Nat) (item : LowConfEntry) :
    List (Nat × List BBoxQ) :=
  item.lowRects.filter (fun pr => decide (pr.1 ∉ pl item.pdfKey))

/-- The `filtered_low_conf` report: entries with a non-empty `kept`. -/
def passlogFilterReport (pl : String → List Nat) (lowConf : List LowConfEntry) :
    List LowConfEntry :=
  lowConf.filterMap (fun item =>
    if (keptRects pl item).isEmpty then none
    else some ⟨item.pdfKey, keptRects pl item⟩)

lemma mem_insertSorted (x a : Nat) (l : List Nat) :
    a ∈ insertSorted x l ↔ a = x ∨ a ∈ l := by
  induction l with
  | nil => simp [insertSorted]
  | cons y ys ih =>
    unfold insertSorted
    split
    · simp
    · simp only [List.mem_cons, ih]
      tauto

lemma mem_pySortedSet (a : Nat) (l : List Nat) : a ∈ pySortedSet l ↔ a ∈ l := by
  unfold pySortedSet
  have h : ∀ ds : List Nat, a ∈ ds.foldr insertSorted [] ↔ a ∈ ds := by
    intro ds
    induction ds with
    | nil => simp
    | cons d ds ih => simp [List.foldr, mem_insertSorted, ih]
  rw [h, List.mem_dedup]

lemma passlogStepOne_superset (lowConf : List LowConfEntry) (pl : String → List Nat)
    (p : PathInfo) (k : String) (x : Nat) (hx : x ∈ pl k) :
    x ∈ passlogStepOne lowConf pl p k := by
  unfold passlogStepOne
  split
  · dsimp only
    by_cases hk : k = p.key
    · subst hk
      rw [if_pos rfl, mem_pySortedSet, List.mem_append]
      exact Or.inl hx
    · rwa [if_neg hk]
  · exact hx

lemma passlogUpdate_superset (lowConf : List LowConfEntry) :
    ∀ paths : List PathInfo, ∀ pl : String → List Nat, ∀ k : String, ∀ x : Nat,
      x ∈ pl k → x ∈ passlogUpdate pl paths lowConf k := by
  intro paths
  induction paths with
  | nil => exact fun pl k x hx => hx
  | cons p ps ih =>
    intro pl k x hx
    exact ih (passlogStepOne lowConf pl p) k x (passlogStepOne_superset lowConf pl p k x hx)

/-- C3: the PassLog only ever grows, and the returned report contains per file
exactly the failing pages absent from the updated PassLog; concretely, with a
prior entry `{2}` for a 3-page file whose run failed pages `{0,2}`, the report
keeps only page 0 and the PassLog becomes `[1,2]`. -/
theorem c3_passlog_monotone_filter (pl : String → List Nat) (paths : List PathInfo)
    (lowConf : List LowConfEntry) :
    (∀ k x, x ∈ pl k → x ∈ passlogUpdate pl paths lowConf k)
    ∧ (∀ item ∈ passlogFilterReport (passlogUpdate pl paths lowConf) lowConf,
        ∃ orig ∈ lowConf,
          item.pdfKey = orig.pdfKey
          ∧ item.lowRects = keptRects (passlogUpdate pl paths lowConf) orig
          ∧ item.lowRects ≠ [])
    ∧ (∀ orig ∈ lowConf, keptRects (passlogUpdate pl paths lowConf) orig ≠ [] →
        (⟨orig.pdfKey, keptRects (passlogUpdate pl paths lowConf) orig⟩ : LowConfEntry) ∈
          passlogFilterReport (passlogUpdate pl paths lowConf) lowConf)
    ∧ (passlogUpdate (fun k => if k = "doc" then [2] else []) [⟨"doc", some 3⟩]
          [⟨"doc", [(0, [(1, 1, 2, 2)]), (2, [(3, 3, 4, 4)])]⟩] "doc" = [1, 2]
      ∧ passlogFilterReport
          (passlogUpdate (fun k => if k = "doc" then [2] else []) [⟨"doc", some 3⟩]
            [⟨"doc", [(0, [(1, 1, 2, 2)]), (2, [(3, 3, 4, 4)])]⟩])
          [⟨"doc", [(0, [(1, 1, 2, 2)]), (2, [(3, 3, 4, 4)])]⟩] =
        [⟨"doc", [(0, [(1, 1, 2, 2)])]⟩]) := by
  refine ⟨fun k x => passlogUpdate_superset lowConf paths pl k x, ?_, ?_, by decide, by decide⟩
  · intro item h
    unfold passlogFilterReport at h
    rw [List.mem_filterMap] at h
    obtain ⟨orig, horig, hif⟩ := h
    split at hif
    · exact absurd hif (by simp)
    · rename_i hne
      simp only [Option.some.injEq] at hif
      subst hif
      refine ⟨orig, horig, rfl, rfl, ?_⟩
      simpa [List.isEmpty_iff] using hne
  · intro orig horig hne
    unfold passlogFilterReport
    rw [List.mem_filterMap]
    refine ⟨orig, horig, ?_⟩
    rw [if_neg]
    simpa [List.isEmpty_iff] using hne

/-- Witness for C3: the concrete report entry obtained through the general
membership conjunct. -/
theorem c3_passlog_monotone_filter_witness :
    (⟨"doc", keptRects
        (passlogUpdate (fun k => if k = "doc" then [2] else []) [⟨"doc", some 3⟩]
          [⟨"doc", [(0, [(1, 1, 2, 2)]), (2, [(3, 3, 4, 4)])]⟩])
        ⟨"doc", [(0, [(1, 1, 2, 2)]), (2, [(3, 3, 4, 4)])]⟩⟩ : LowConfEntry) ∈
      passlogFilterReport
        (passlogUpdate (fun k => if k = "doc" then [2] else []) [⟨"doc", some 3⟩]
          [⟨"doc", [(0, [(1, 1, 2, 2)]), (2, [(3, 3, 4, 4)])]⟩])
        [⟨"doc", [(0, [(1, 1, 2, 2)]), (2, [(3, 3, 4, 4)])]⟩] :=
  (c3_passlog_monotone_filter (fun k => if k = "doc" then [2] else []) [⟨"doc", some 3⟩]
      [⟨"doc", [(0, [(1, 1, 2, 2)]), (2, [(3, 3, 4, 4)])]⟩]).2.2.1
    ⟨"doc", [(0, [(1, 1, 2, 2)]), (2, [(3, 3, 4, 4)])]⟩ (by decide) (by decide)

/-! ## The LLM text chunker (C6)

`llm_utils._chunk_text(text, max_chars=2000)`:

    sentences = re.split(r'(?<=[.?!])\s+', text)
    chunks, current = [], []
    length = 0
    for sent in sentences:
        if length + len(sent) > max_chars:
            chunks.append(" ".join(current))
            current, length = [sent], len(sent)
        else:
            current.append(sent)
            length += len(sent)
    if current:
        chunks.append(" ".join(current))
    return chunks

Text is modelled as `List Char`; `\s` is modelled by the ASCII whitespace
class (which is what the claims exercise). -/

/-- ASCII fragment of Python's `\s` class. -/
def pyIsSpace (c : Char) : Bool :=
  c = ' ' || c = '\t' || c = '\n' || c = '\x0b' || c = '\x0c' || c = '\r'

/-- The look-behind class `[.?!]`. -/
def sentencePunct (c : Char) : Bool := c = '.' || c = '?' || c = '!'

/-- Scanner for `re.split(r'(?<=[.?!])\s+', text)`.  The accumulator holds the
current sentence reversed; `skipping = true` while consuming the `\s+` run of
a match (the look-behind has already been checked when entering it). -/
def splitSentencesAux : List Char → List Char → Bool → List (List Char)
  | [], acc, _ => [acc.reverse]
  | c :: rest, acc, skipping =>
    if skipping then
      if pyIsSpace c then splitSentencesAux rest [] true
      else splitSentencesAux rest [c] false
    else if pyIsSpace c && (match acc with | p :: _ => sentencePunct p | [] => false) then
      acc.reverse :: splitSentencesAux rest [] true
    else
      splitSentencesAux rest (c :: acc) false

/-- `re.split(r'(?<=[.?!])\s+', text)`. -/
def splitSentences (text : List Char) : List (List Char) :=
  splitSentencesAux text [] false

/-- The accumulation loop of `_chunk_text`, returning each chunk as its list
of sentences (`current`), in order. -/
def chunkGroupsAux (maxChars : Nat) :
    List (List Char) → List (List Char) → Nat → List (List (List Char))
  | [], current, _ => if current.isEmpty then [] else [current]
  | s :: rest, current, length =>
    if maxChars < length + s.length then
      current :: chunkGroupsAux maxChars rest [s] s.length
    else
      chunkGroupsAux maxChars rest (current ++ [s]) (length + s.length)

/-- `" ".join(current)`. -/
def joinSp : List (List Char) → List Char
  | [] => []
  | [s] => s
  | s :: rest => s ++ ' ' :: joinSp rest

/-- `llm_utils._chunk_text`. -/
def chunk_text (text : List Char) (maxChars : Nat) : List (List Char) :=
  (chunkGroupsAux maxChars (splitSentences text) [] 0).map joinSp

/-- A text made of a 1000-character sentence followed by a 1000-character
sentence: `"a"*999 + ". " + "b"*1000`. -/
def c6BadText : List Char :=
  List.replicate 999 'a' ++ '.' :: ' ' :: List.replicate 1000 'b'

set_option maxRecDepth 100000 in
/-- C6 counterexample: on the text `"a"*999 + ". " + "b"*1000` (two sentences
of length 1000 each) the single chunk returned by `_chunk_text` with
`max_chars = 2000` has length 2001: the loop compares the running sum of
sentence lengths against the limit but `" ".join` re-inserts one space per
boundary, so the chunk exceeds 2000 characters. -/
theorem c6_chunk_overflow_counterexample :
    ¬ (∀ c ∈ chunk_text c6BadText 2000, c.length ≤ 2000) := by decide

lemma joinSp_length (g : List (List Char)) (hg : g ≠ []) :
    (joinSp g).length = (g.map List.length).sum + g.length - 1 := by
  induction g with
  | nil => exact absurd rfl hg
  | cons s rest ih =>
    cases rest with
    | nil => simp [joinSp]
    | cons s2 r2 =>
      have h2 : s2 :: r2 ≠ [] := by simp
      have : joinSp (s :: s2 :: r2) = s ++ ' ' :: joinSp (s2 :: r2) := rfl
      rw [this]
      have hlen := ih h2
      simp only [List.length_append, List.length_cons, List.map_cons, List.sum_cons] at *
      omega

lemma chunkGroupsAux_sum_le (maxChars : Nat) :
    ∀ sents current length : _,
      (∀ s ∈ sents, s.length ≤ maxChars) →
      (current.map List.length).sum = length →
      length ≤ maxChars →
      ∀ g ∈ chunkGroupsAux maxChars sents current length,
        (g.map List.length).sum ≤ maxChars := by
  intro sents
  induction sents with
  | nil =>
    intro current length _ hcur hle g hg
    unfold chunkGroupsAux at hg
    split at hg
    · simp at hg
    · simp only [List.mem_singleton] at hg
      subst hg
      omega
  | cons s rest ih =>
    intro current length hs hcur hle g hg
    unfold chunkGroupsAux at hg
    split at hg
    · rcases List.mem_cons.mp hg with rfl | hg2
      · omega
      · exact ih [s] s.length (fun s' hs' => hs s' (List.mem_cons_of_mem _ hs'))
          (by simp) (hs s (List.mem_cons_self _ _)) g hg2
    · rename_i hnlt
      refine ih (current ++ [s]) (length + s.length)
        (fun s' hs' => hs s' (List.mem_cons_of_mem _ hs')) ?_ (by omega) g hg
      simp [hcur]

/-- C6 (amended): chunks are the sentence groups accumulated greedily, and as
long as every sentence is at most `max_chars` long, the total sentence length
of every chunk is at most `max_chars`; the returned chunk string additionally
contains one joining space per sentence boundary, so its length is bounded by
`max_chars + (number of sentences in the chunk) - 1` — and can therefore
exceed `max_chars`, as the counterexample shows. -/
theorem c6_chunk_sum_bound (text : List Char) (maxChars : Nat)
    (h : ∀ s ∈ splitSentences text, s.length ≤ maxChars) :
    ∀ g ∈ chunkGroupsAux maxChars (splitSentences text) [] 0,
      (g.map List.length).sum ≤ maxChars
      ∧ (joinSp g).length ≤ maxChars + g.length - 1
      ∧ joinSp g ∈ chunk_text text maxChars := by
  intro g hg
  have h1 := chunkGroupsAux_sum_le maxChars (splitSentences text) [] 0 h rfl
    (Nat.zero_le _) g hg
  refine ⟨h1, ?_, ?_⟩
  · by_cases hge : g = []
    · subst hge
      simp [joinSp]
    · rw [joinSp_length g hge]
      have : 1 ≤ g.length := List.length_pos.mpr hge
      omega
  · exact List.mem_map.mpr ⟨g, hg, rfl⟩

/-- Witness for C6 (amended): the second chunk of `"ab. cd. ef"` at limit 5
holds sentences of total length 5 and joins to the 6-character `"cd. ef"`. -/
theorem c6_chunk_sum_bound_witness :
    ((["cd.".toList, "ef".toList].map List.length).sum ≤ 5)
    ∧ (joinSp ["cd.".toList, "ef".toList]).length ≤ 5 + ["cd.".toList, "ef".toList].length - 1
    ∧ joinSp ["cd.".toList, "ef".toList] ∈ chunk_text "ab. cd. ef".toList 5 :=
  c6_chunk_sum_bound "ab. cd. ef".toList 5 (by decide) ["cd.".toList, "ef".toList] (by decide)

/-! ## Upload filename and client id sanitisation (C7, C10)

`api_app._safe_filename`:

    name = (name or "file.pdf").strip().replace("\\", "/").split("/")[-1]
    keep = "-_.() "
    cleaned = "".join(c for c in name if c.isalnum() or c in keep).strip()
    return cleaned or "file.pdf"

`api_app._safe_client_id`:

    s = (s or "").strip().lower().replace(" ", "_")
    return "".join(ch for ch in s if ch.isalnum() or ch in "_-") or "template"

`str.isalnum`, `str.lower` and `str.strip` are modelled on ASCII. -/

/-- ASCII fragment of `str.isalnum`. -/
def pyIsAlnum (c : Char) : Bool := c.isAlpha || c.isDigit

/-- `str.strip()`: drop leading and trailing whitespace. -/
def pyStrip (l : List Char) : List Char :=
  ((l.dropWhile pyIsSpace).reverse.dropWhile pyIsSpace).reverse

/-- The `keep = "-_.() "` character set. -/
def keepFileChars : List Char := ['-', '_', '.', '(', ')', ' ']

/-- `.split("/")[-1]`: the part after the last `'/'`. -/
def lastSlashComponent (l : List Char) : List Char :=
  l.foldl (fun acc c => if c = '/' then [] else acc ++ [c]) []

/-- The `cleaned` value computed by `_safe_filename`. -/
def _safe_filename_cleaned (name : List Char) : List Char :=
  let base := lastSlashComponent
    ((pyStrip (if name.isEmpty then "file.pdf".toList else name)).map
      (fun c => if c = '\\' then '/' else c))
  pyStrip (base.filter (fun c => pyIsAlnum c || decide (c ∈ keepFileChars)))

/-- `api_app._safe_filename`. -/
def _safe_filename (name : List Char) : List Char :=
  if (_safe_filename_cleaned name).isEmpty then "file.pdf".toList
  else _safe_filename_cleaned name

lemma mem_of_mem_pyStrip {c : Char} {l : List Char} (h : c ∈ pyStrip l) : c ∈ l := by
  unfold pyStrip at h
  rw [List.mem_reverse] at h
  have h1 : c ∈ (l.dropWhile pyIsSpace).reverse := (List.dropWhile_sublist _).mem h
  rw [List.mem_reverse] at h1
  exact (List.dropWhile_sublist _).mem h1

lemma safe_filename_charset (name : List Char) :
    ∀ c ∈ _safe_filename name, pyIsAlnum c = true ∨ c ∈ keepFileChars := by
  intro c hc
  unfold _safe_filename at hc
  split at hc
  · have hlit : "file.pdf".toList = ['f', 'i', 'l', 'e', '.', 'p', 'd', 'f'] := rfl
    rw [hlit] at hc
    simp only [List.mem_cons, List.not_mem_nil, or_false] at hc
    rcases hc with rfl | rfl | rfl | rfl | rfl | rfl | rfl | rfl <;> decide
  · unfold _safe_filename_cleaned at hc
    have h1 := mem_of_mem_pyStrip hc
    rw [List.mem_filter] at h1
    rcases Bool.or_eq_true _ _ |>.mp h1.2 with h | h
    · exact Or.inl h
    · exact Or.inr (of_decide_eq_true h)

/-- C7: `_safe_filename` takes the part after the last path separator, keeps
only alphanumerics and `-_.() `, falls back to `"file.pdf"` when the filtered
result is empty, always returns a non-empty name free of path separators, and
maps `"../../etc/passwd.pdf"` to `"passwd.pdf"`. -/
theorem c7_safe_filename :
    (∀ name : List Char, _safe_filename name ≠ [])
    ∧ (∀ name : List Char, ∀ c ∈ _safe_filename name,
        pyIsAlnum c = true ∨ c ∈ keepFileChars)
    ∧ (∀ name : List Char, '/' ∉ _safe_filename name ∧ '\\' ∉ _safe_filename name)
    ∧ (∀ name : List Char, _safe_filename_cleaned name = [] →
        _safe_filename name = "file.pdf".toList)
    ∧ _safe_filename "../../etc/passwd.pdf".toList = "passwd.pdf".toList := by
  refine ⟨?_, safe_filename_charset, ?_, ?_, by decide⟩
  · intro name
    unfold _safe_filename
    split
    · decide
    · rename_i h
      simpa [List.isEmpty_iff] using h
  · intro name
    constructor
    · intro hmem
      rcases safe_filename_charset name _ hmem with h | h
      · exact absurd h (by decide)
      · exact absurd h (by decide)
    · intro hmem
      rcases safe_filename_charset name _ hmem with h | h
      · exact absurd h (by decide)
      · exact absurd h (by decide)
  · intro name h
    simp [_safe_filename, h]

/-- Witness for C7: the charset conjunct applied to the first character of a
concretely evaluated output. -/
theorem c7_safe_filename_witness :
    pyIsAlnum 'p' = true ∨ 'p' ∈ keepFileChars :=
  c7_safe_filename.2.1 "../../etc/passwd.pdf".toList 'p' (by decide)

/-- The filtered string built by `_safe_client_id` before the fallback. -/
def _safe_client_id_core (s : List Char) : List Char :=
  (((pyStrip s).map Char.toLower).map (fun c => if c = ' ' then '_' else c)).filter
    (fun c => pyIsAlnum c || c = '_' || c = '-')

/-- `api_app._safe_client_id`. -/
def _safe_client_id (s : List Char) : List Char :=
  if (_safe_client_id_core s).isEmpty then "template".toList
  else _safe_client_id_core s

/-- The transformation exactly as the claim words it: lower-case the input,
replace spaces by underscores, drop every character that is not alphanumeric,
`'_'` or `'-'` — with no leading `.strip()`. -/
def _safe_client_id_claimed_core (s : List Char) : List Char :=
  ((s.map Char.toLower).map (fun c => if c = ' ' then '_' else c)).filter
    (fun c => pyIsAlnum c || c = '_' || c = '-')

/-- The claim's description of `_safe_client_id`, with the `"template"`
fallback on an empty filtered result. -/
def _safe_client_id_claimed (s : List Char) : List Char :=
  if (_safe_client_id_claimed_core s).isEmpty then "template".toList
  else _safe_client_id_claimed_core s

/-- C10 counterexample: on input `" a "` the code strips the surrounding
whitespace first and returns `"a"`, while the transformation as claimed turns
the surrounding spaces into underscores and yields `"_a_"`. -/
theorem c10_strip_counterexample :
    _safe_client_id " a ".toList = "a".toList
    ∧ _safe_client_id_claimed " a ".toList = "_a_".toList
    ∧ _safe_client_id " a ".toList ≠ _safe_client_id_claimed " a ".toList := by
  exact ⟨by decide, by decide, by decide⟩

/-- C10 (amended): `_safe_client_id` is always non-empty and equals the
claimed lower-case/underscore/filter transformation applied to the
whitespace-stripped input. -/
theorem c10_safe_client_id_amended (s : List Char) :
    _safe_client_id s ≠ [] ∧ _safe_client_id s = _safe_client_id_claimed (pyStrip s) := by
  constructor
  · unfold _safe_client_id
    split
    · decide
    · rename_i h
      simpa [List.isEmpty_iff] using h
  · rfl

/-! ## `extract_zones_content` and its partition invariant (C8)

`template_utils.extract_zones_content(pdf_path, rectangles, _return_skips)`
walks the rectangle list once; per rectangle it clamps the 0-based page index
into range, normalises the drawn bbox, and either (a) records one result
(page, rotation-transformed bbox, overlapping words joined and stripped,
image hash of the original clip) plus one used-rectangle (page, normalised
as-drawn bbox, carried-over paper/orientation keys), or (b) when the
normalised bbox fails `_bbox_inside_page`, records one skip entry.  A page is
modelled by the data the function reads from PyMuPDF/pdfplumber: rotation,
width, height, the word boxes, and the pixmap hash as an abstract function of
the clip. -/

/-- The data `extract_zones_content` reads from one PDF page. -/
structure PageModel where
  rotation : Int
  width : ℚ
  height : ℚ
  words : List (BBoxQ × String)
  pixHash : BBoxQ → String

/-- A readable PDF document: its pages. -/
structure PdfModel where
  pages : List PageModel

/-- An input rectangle dict: `page` (may be negative or out of range),
`bbox`, and the optional `paper`/`orientation` keys. -/
structure RectIn where
  page : Int
  bbox : BBoxQ
  paper : Option String
  orientation : Option String

/-- Placeholder page used to make list indexing total; never reached for a
non-empty `pages` list because the clamped index is in range. -/
def defaultPage : PageModel := ⟨0, 0, 0, [], fun _ => ""⟩

def pageAt (pdf : PdfModel) (i : Nat) : PageModel := pdf.pages.getD i defaultPage

/-- `page_num = int(...); if page_num < 0: 0; elif page_num >= count: count-1`. -/
def clampPageIndex (p : Int) (count : Nat) : Nat :=
  if p < 0 then 0 else if (count : Int) ≤ p then count - 1 else p.toNat

/-- `template_utils._bbox_inside_page(page, bbox, tol=0.1)` with the page's
width and height passed explicitly. -/
def _bbox_inside_page (w h : ℚ) (b : BBoxQ) : Bool :=
  let n := normalized_bbox b
  if n.2.2.1 - n.1 ≤ 0 ∨ n.2.2.2 - n.2.1 ≤ 0 then false
  else if n.1 < -(1/10) ∨ n.2.1 < -(1/10) ∨ w + 1/10 < n.2.2.1 ∨ h + 1/10 < n.2.2.2 then
    false
  else true

/-- `template_utils.overlaps(b1, b2, tol)`. -/
def overlaps (b1 b2 : BBoxQ) (tol : ℚ) : Bool :=
  !(decide (b1.2.2.1 < b2.1 - tol) || decide (b2.2.2.1 + tol < b1.1)
    || decide (b1.2.2.2 < b2.2.1 - tol) || decide (b2.2.2.2 + tol < b1.2.1))

/-- One element of the `results` list. -/
structure ZoneContent where
  page : Nat
  bbox : BBoxQ
  text : String
  image_hash : String

/-- One element of the `used_rects` list. -/
structure UsedRect where
  page : Nat
  bbox : BBoxQ
  paper : Option String
  orientation : Option String

/-- One element of the `skipped` list. -/
structure SkippedRect where
  page : Nat
  bbox : BBoxQ
  reason : String
  pageSize : ℚ × ℚ
  rotation : Int

/-- The per-rectangle body of the extraction loop: either a result paired
with its used-rectangle, or a skip entry. -/
def extract_zone_one (pdf : PdfModel) (rect : RectIn) :
    Sum (ZoneContent × UsedRect) SkippedRect :=
  let pnum := clampPageIndex rect.page pdf.pages.length
  let page := pageAt pdf pnum
  let pr := page.rotation % 360
  let pw := page.width
  let ph := page.height
  let ob := normalized_bbox rect.bbox
  let tb := transform_bbox_for_rotation ob pw ph pr
  if _bbox_inside_page pw ph ob then
    Sum.inl
      (⟨pnum, tb,
        (String.intercalate " "
          ((page.words.filter (fun ws => overlaps ws.1 tb 0)).map Prod.snd)).trim,
        page.pixHash ob⟩,
       ⟨pnum, ob, rect.paper, rect.orientation⟩)
  else
    Sum.inr ⟨pnum, rect.bbox, "oob_or_invalid", (pw, ph), pr⟩

/-- `template_utils.extract_zones_content` with `_return_skips=True`:
`(results, used_rects, skipped)`. -/
def extract_zones_content (pdf : PdfModel) :
    List RectIn → List ZoneContent × List UsedRect × List SkippedRect
  | [] => ([], [], [])
  | rect :: rest =>
    let t := extract_zones_content pdf rest
    match extract_zone_one pdf rect with
    | Sum.inl p => (p.1 :: t.1, p.2 :: t.2.1, t.2.2)
    | Sum.inr sk => (t.1, t.2.1, sk :: t.2.2)

/-- The relation between the i-th result and the i-th used-rectangle. -/
def zoneMatches (pdf : PdfModel) (zc : ZoneContent) (ur : UsedRect) : Prop :=
  zc.page = ur.page
  ∧ zc.bbox = transform_bbox_for_rotation ur.bbox (pageAt pdf ur.page).width
      (pageAt pdf ur.page).height ((pageAt pdf ur.page).rotation % 360)

lemma extract_zone_one_inl (pdf : PdfModel) (rect : RectIn) (zc : ZoneContent)
    (ur : UsedRect) (h : extract_zone_one pdf rect = Sum.inl (zc, ur)) :
    zoneMatches pdf zc ur
    ∧ ur.page = clampPageIndex rect.page pdf.pages.length
    ∧ ur.bbox = normalized_bbox rect.bbox := by
  unfold extract_zone_one at h
  dsimp only at h
  split at h
  · simp only [Sum.inl.injEq, Prod.mk.injEq] at h
    obtain ⟨h1, h2⟩ := h
    subst h1
    subst h2
    exact ⟨⟨rfl, rfl⟩, rfl, rfl⟩
  · exact absurd h (by simp)

/-- C8: the three lists returned by `extract_zones_content` partition the
input: results and used-rectangles are in 1-1 correspondence
(`len(results) = len(used_rects)`), every input rectangle contributes exactly
one entry to either the result/used pair of lists or the skipped list
(`len(results) + len(skipped) = len(rectangles)`), the i-th result and i-th
used-rectangle carry the same clamped page with the result's bbox the
rotation-transform of the used-rectangle's bbox, and every used-rectangle is
the clamped-page/normalised-bbox image of some input rectangle. -/
theorem c8_extract_partition (pdf : PdfModel) (rects : List RectIn) :
    List.Forall₂ (zoneMatches pdf) (extract_zones_content pdf rects).1
      (extract_zones_content pdf rects).2.1
    ∧ (extract_zones_content pdf rects).1.length =
        (extract_zones_content pdf rects).2.1.length
    ∧ (extract_zones_content pdf rects).1.length +
        (extract_zones_content pdf rects).2.2.length = rects.length
    ∧ ∀ ur ∈ (extract_zones_content pdf rects).2.1, ∃ r ∈ rects,
        ur.page = clampPageIndex r.page pdf.pages.length
        ∧ ur.bbox = normalized_bbox r.bbox := by
  induction rects with
  | nil => exact ⟨List.Forall₂.nil, rfl, rfl, by simp [extract_zones_content]⟩
  | cons r rest ih =>
    obtain ⟨ihF, ihL, ihP, ihU⟩ := ih
    cases h : extract_zone_one pdf r with
    | inl p =>
      obtain ⟨hm, hpage, hbbox⟩ := extract_zone_one_inl pdf r p.1 p.2 h
      have he : extract_zones_content pdf (r :: rest) =
          (p.1 :: (extract_zones_content pdf rest).1,
           p.2 :: (extract_zones_content pdf rest).2.1,
           (extract_zones_content pdf rest).2.2) := by
        simp [extract_zones_content, h]
      rw [he]
      refine ⟨List.Forall₂.cons hm ihF, by simp [ihL], ?_, ?_⟩
      · simp only [List.length_cons]
        omega
      · intro ur hur
        rcases List.mem_cons.mp hur with rfl | h2
        · exact ⟨r, List.mem_cons_self _ _, hpage, hbbox⟩
        · obtain ⟨r', hr', hh⟩ := ihU ur h2
          exact ⟨r', List.mem_cons_of_mem _ hr', hh⟩
    | inr sk =>
      have he : extract_zones_content pdf (r :: rest) =
          ((extract_zones_content pdf rest).1,
           (extract_zones_content pdf rest).2.1,
           sk :: (extract_zones_content pdf rest).2.2) := by
        simp [extract_zones_content, h]
      rw [he]
      refine ⟨ihF, ihL, ?_, ?_⟩
      · simp only [List.length_cons]
        omega
      · intro ur hur
        obtain ⟨r', hr', hh⟩ := ihU ur hur
        exact ⟨r', List.mem_cons_of_mem _ hr', hh⟩

/-- A one-page document and an in-bounds rectangle for the C8 witness. -/
def c8Pdf : PdfModel := ⟨[⟨0, 100, 100, [], fun _ => "h"⟩]⟩

def c8Rect : RectIn := ⟨0, (10, 10, 20, 20), none, none⟩

lemma c8_eval :
    (extract_zones_content c8Pdf [c8Rect]).2.1 = [⟨0, (10, 10, 20, 20), none, none⟩] := by
  have h1 : extract_zone_one c8Pdf c8Rect =
      Sum.inl (⟨0, (10, 10, 20, 20), (String.intercalate " " []).trim, "h"⟩,
        ⟨0, (10, 10, 20, 20), none, none⟩) := by
    unfold extract_zone_one c8Rect c8Pdf
    norm_num [clampPageIndex, pageAt, defaultPage, normalized_bbox, _bbox_inside_page,
      transform_bbox_for_rotation, renorm_bbox]
  simp [extract_zones_content, h1]

/-- Witness for C8: the used-rectangle produced for a concrete in-bounds
rectangle is the clamped-page/normalised-bbox image of that rectangle. -/
theorem c8_extract_partition_witness :
    ∃ r ∈ [c8Rect], (⟨0, (10, 10, 20, 20), none, none⟩ : UsedRect).page =
        clampPageIndex r.page c8Pdf.pages.length
      ∧ (⟨0, (10, 10, 20, 20), none, none⟩ : UsedRect).bbox = normalized_bbox r.bbox :=
  (c8_extract_partition c8Pdf [c8Rect]).2.2.2 ⟨0, (10, 10, 20, 20), none, none⟩
    (by rw [c8_eval]; exact List.mem_singleton_self _)

/-! ## Template id parsing and version allocation (C9)

`TemplateManager._ID_RE = ^(?P<client>[A-Za-z0-9_\-]+)_v(?P<ver>\d+)$` and

    def parse_template_id(self, template_id):
        m = self._ID_RE.match(template_id)
        if not m: return template_id, None
        return m.group("client"), int(m.group("ver"))

`next_version_id(client)` returns the f-string `f"{client}_v{latest + 1}"`.
A successful anchored match splits the string as `client ++ "_v" ++ digits`
with a non-empty id-char client and non-empty digit suffix; the greedy `+` on
the client group picks, among all such splits, the one with the longest
client.  `parse_template_id` is embedded through that characterisation. -/

/-- The `[A-Za-z0-9_\-]` class of `_ID_RE`. -/
def isIdChar (c : Char) : Bool := c.isAlpha || c.isDigit || c = '_' || c = '-'

/-- Digit character to value (`ord(c) - 48`). -/
def charDigitVal (c : Char) : Nat := c.toNat - 48

/-- `int(...)` on a digit string, most significant digit first. -/
def natOfDigits (l : List Char) : Nat := l.foldl (fun a c => 10 * a + charDigitVal c) 0

/-- Decimal digit characters of `n`, most significant first: `f"{n}"` for
positive `n`. -/
def natDigits (n : Nat) : List Char := (Nat.digits 10 n).reverse.map Nat.digitChar

/-- Does position `k` split `s` as `client ++ "_v" ++ version`, with a
non-empty all-id-char client prefix of length `k` and a non-empty all-digit
suffix?  Exactly a successful anchored `_ID_RE` match whose client group has
length `k`. -/
def vSplitCond (s : List Char) (k : Nat) : Bool :=
  decide (1 ≤ k) && (s.take k).all isIdChar
    && decide ((s.drop k).take 2 = ['_', 'v'])
    && decide (s.drop (k + 2) ≠ []) && (s.drop (k + 2)).all Char.isDigit

/-- Largest split position at most `m`: the greedy client group makes the
match use the longest possible client. -/
def findVSplit (s : List Char) : Nat → Option Nat
  | 0 => none
  | k + 1 => if vSplitCond s (k + 1) then some (k + 1) else findVSplit s k

/-- `TemplateManager.parse_template_id`. -/
def parse_template_id (s : List Char) : List Char × Option Nat :=
  match findVSplit s s.length with
  | some k => (s.take k, some (natOfDigits (s.drop (k + 2))))
  | none => (s, none)

lemma natOfDigits_append_one (l : List Char) (c : Char) :
    natOfDigits (l ++ [c]) = 10 * natOfDigits l + charDigitVal c := by
  unfold natOfDigits
  rw [List.foldl_append]
  rfl

lemma natOfDigits_natDigits (n : Nat) : natOfDigits (natDigits n) = n := by
  have key : ∀ L : List Nat, (∀ d ∈ L, d < 10) →
      natOfDigits (L.reverse.map Nat.digitChar) = Nat.ofDigits 10 L := by
    intro L
    induction L with
    | nil => intro _; rfl
    | cons d L ih =>
      intro hd
      rw [List.reverse_cons, List.map_append, List.map_singleton, natOfDigits_append_one,
        ih (fun x hx => hd x (List.mem_cons_of_mem _ hx))]
      have hv : charDigitVal (Nat.digitChar d) = d := by
        have hdlt := hd d (List.mem_cons_self _ _)
        interval_cases d <;> decide
      have hc : (Nat.ofDigits 10 (d :: L) : ℕ) = d + 10 * Nat.ofDigits 10 L := by
        exact_mod_cast Nat.ofDigits_cons
      rw [hv, hc]
      omega
  unfold natDigits
  rw [key (Nat.digits 10 n) (fun d hd => Nat.digits_lt_base (by norm_num) hd)]
  exact Nat.ofDigits_digits 10 n

lemma natDigits_ne_nil (n : Nat) (hn : 1 ≤ n) : natDigits n ≠ [] := by
  unfold natDigits
  intro h
  rw [List.map_eq_nil_iff, List.reverse_eq_nil_iff] at h
  exact Nat.digits_ne_nil_iff_ne_zero.mpr (by omega) h

lemma natDigits_all_digit (n : Nat) : (natDigits n).all Char.isDigit = true := by
  rw [List.all_eq_true]
  intro c hc
  unfold natDigits at hc
  rw [List.mem_map] at hc
  obtain ⟨d, hd, rfl⟩ := hc
  rw [List.mem_reverse] at hd
  have hdlt : d < 10 := Nat.digits_lt_base (by norm_num) hd
  interval_cases d <;> decide

lemma take2_eq_underscore_mem {t : List Char} (h : t.take 2 = ['_', 'v']) : '_' ∈ t := by
  cases t with
  | nil => simp at h
  | cons a t2 =>
    simp only [List.take_succ_cons, List.cons.injEq] at h
    exact h.1 ▸ List.mem_cons_self _ _

lemma findVSplit_down (s : List Char) (k0 : Nat) (hk : vSplitCond s k0 = true)
    (hmax : ∀ j, k0 < j → vSplitCond s j = false) :
    ∀ m, k0 ≤ m → findVSplit s m = some k0 := by
  intro m
  induction m with
  | zero =>
    intro h0
    have hz : k0 = 0 := Nat.le_zero.mp h0
    subst hz
    exact absurd hk (by simp [vSplitCond])
  | succ m ih =>
    intro hle
    unfold findVSplit
    by_cases he : k0 = m + 1
    · subst he
      rw [if_pos hk]
    · have hcond : vSplitCond s (m + 1) = false := hmax (m + 1) (by omega)
      rw [hcond]
      simp only [Bool.false_eq_true, if_false]
      exact ih (by omega)

lemma vSplitCond_gt_false (c ds : List Char) (hdig : ds.all Char.isDigit = true)
    (k : Nat) (hk : c.length < k) :
    vSplitCond (c ++ '_' :: 'v' :: ds) k = false := by
  set s := c ++ '_' :: 'v' :: ds with hs
  have hnot : ¬ (s.drop k).take 2 = ['_', 'v'] := by
    intro h
    have hm : '_' ∈ s.drop k := take2_eq_underscore_mem h
    have hdk : s.drop k = ('v' :: ds).drop (k - c.length - 1) := by
      have h1 : s.drop c.length = '_' :: 'v' :: ds := List.drop_left c _
      have h2 : (s.drop c.length).drop (k - c.length) = s.drop k := by
        rw [List.drop_drop]
        congr 1
        omega
      rw [← h2, h1]
      have h3 : k - c.length = (k - c.length - 1) + 1 := by omega
      rw [h3, List.drop_succ_cons]
      have h4 : k - c.length - 1 + 1 - 1 = k - c.length - 1 := by omega
      rw [h4]
    rw [hdk] at hm
    have hm2 : '_' ∈ 'v' :: ds := (List.drop_sublist _ _).mem hm
    rcases List.mem_cons.mp hm2 with h4 | h4
    · exact absurd h4 (by decide)
    · exact absurd (List.all_eq_true.mp hdig '_' h4) (by decide)
  unfold vSplitCond
  simp [hnot]

/-- C9: parsing an allocated version id round-trips: for every non-empty
client made of letters, digits, `'_'` and `'-'`, and every positive `n`,
`parse_template_id(f"{client}_v{n}") = (client, n)` — in particular for the
id `next_version_id` builds with `n = latest_version_number(client) + 1`. -/
theorem c9_parse_roundtrip (c : List Char) (n : Nat) (hc : c ≠ [])
    (hid : ∀ ch ∈ c, isIdChar ch = true) (hn : 1 ≤ n) :
    parse_template_id (c ++ '_' :: 'v' :: natDigits n) = (c, some n) := by
  set s := c ++ '_' :: 'v' :: natDigits n with hs
  have htake : s.take c.length = c := List.take_left c _
  have hdrop : s.drop c.length = '_' :: 'v' :: natDigits n := List.drop_left c _
  have hdrop2 : s.drop (c.length + 2) = natDigits n := by
    have h2 : (s.drop c.length).drop 2 = s.drop (c.length + 2) := List.drop_drop _ _ _
    rw [← h2, hdrop]
    rfl
  have hcond : vSplitCond s c.length = true := by
    unfold vSplitCond
    rw [htake, hdrop, hdrop2]
    simp [Nat.one_le_iff_ne_zero, List.length_pos.mpr hc, natDigits_ne_nil n hn,
      natDigits_all_digit n, List.all_eq_true.mpr hid, List.length_pos, hc]
  have hmax : ∀ j, c.length < j → vSplitCond s j = false :=
    fun j hj => vSplitCond_gt_false c (natDigits n) (natDigits_all_digit n) j hj
  have hlen : c.length ≤ s.length := by
    rw [hs]
    simp [List.length_append]
  have hfind : findVSplit s s.length = some c.length :=
    findVSplit_down s c.length hcond hmax s.length hlen
  unfold parse_template_id
  rw [hfind]
  dsimp only
  rw [htake, hdrop2, natOfDigits_natDigits]

/-- Witness for C9: `parse_template_id("acme_v2") = ("acme", 2)`. -/
theorem c9_parse_roundtrip_witness :
    parse_template_id ("acme".toList ++ '_' :: 'v' :: natDigits 2) =
      ("acme".toList, some 2) :=
  c9_parse_roundtrip "acme".toList 2 (by decide) (by decide) (by decide)

/-- Witness for C10 (amended): a concrete client name evaluated through the
amended equation. -/
theorem c10_safe_client_id_amended_witness :
    _safe_client_id "Acme Corp".toList ≠ []
    ∧ _safe_client_id "Acme Corp".toList =
        _safe_client_id_claimed (pyStrip "Acme Corp".toList) :=
  c10_safe_client_id_amended "Acme Corp".toList
